import Mathlib

/-!
Shallow embedding of the tick-to-bar pipeline of `src/process_1m_data.py`
(rehohoho/darwin-api).

Modelling conventions:
* pandas DataFrames keyed by a timestamp index are modelled as association
  lists `List (τ × row)`; the index is the first component.
* floating point prices and millisecond timestamps are modelled as exact
  rationals (`ℚ`); Python's `round(x, n)` is modelled as exact round-half-even
  to `n` decimal digits.
* fallible code (Python exceptions) is modelled with `Except`.
* stateful file I/O (reading an existing csv, writing it back) is modelled by
  passing the existing series (or `none` when the file does not exist)
  explicitly and returning the series that is written.
-/

/-! ## SeriesAppender: `append_or_create_csv` (src/process_1m_data.py lines 223-239) -/

/-- Index lookup on a timestamp-keyed table: the first row carrying the key
(pandas `.loc` on a possibly duplicated index, restricted to the first hit). -/
def lookupTs {τ α : Type} [DecidableEq τ] (l : List (τ × α)) (t : τ) : Option α :=
  (l.find? (fun x => decide (x.1 = t))).map Prod.snd

/-- Pandas `df[~df.index.duplicated(keep='first')]`: keep each row whose
timestamp has not been seen before (`seen` accumulates index values already
emitted). -/
def dropDupIndex {τ α : Type} [DecidableEq τ] (seen : List τ) :
    List (τ × α) → List (τ × α)
  | [] => []
  | x :: xs =>
    if x.1 ∈ seen then dropDupIndex seen xs
    else x :: dropDupIndex (x.1 :: seen) xs

/-- The `seen` list after `dropDupIndex` has traversed `l`. -/
def seenAfter {τ α : Type} [DecidableEq τ] (seen : List τ) :
    List (τ × α) → List τ
  | [] => seen
  | x :: xs =>
    if x.1 ∈ seen then seenAfter seen xs
    else seenAfter (x.1 :: seen) xs

/-- Source `append_or_create_csv(_df, csv_path_name)`.  `old` is the content of
the csv when it already exists (`none` otherwise), `df` is the new data.  The
result is the series written back to disk.  When the file exists the source
concatenates `[old_data, _df]` (with `join="inner"`: the column intersection —
modelled as identical row schemas, which is how the pipeline uses it), converts
the index with `pd.to_datetime` (a pure representation change, the identity
here) and drops duplicated index entries keeping the first occurrence.  No
re-sorting is performed. -/
def append_or_create_csv {τ α : Type} [DecidableEq τ]
    (old : Option (List (τ × α))) (df : List (τ × α)) : List (τ × α) :=
  match old with
  | some old_data => dropDupIndex [] (old_data ++ df)
  | none => df

/-! ## TickFileParser: `_construct_data_` (src/process_1m_data.py lines 83-99) -/

/-- Failure modes of `_construct_data_`.  In the source the unknown-extension
branch executes `raise ("Unknown file type %s" % _filename)` (which surfaces in
Python 3 as a `TypeError`, an uncaught exception either way) and a
non-coercible field makes `pd.to_numeric` raise `ValueError`; a line whose
field count does not match the three assigned column names raises as well.
All of them abort the parse of that file. -/
inductive ParseError where
  | unknownFileType (name : String)
  | coercion (row : List String)
  | columnMismatch (n : ℕ)
deriving DecidableEq

/-- A source tick file: its path name (the side marker `BID`/`ASK` and the
extension live in the name) and its data lines.  For `.csv` files the header
line is already stripped (pandas `read_csv` consumes it). -/
structure RawFile where
  name : String
  lines : List String
deriving DecidableEq

/-- Python `str.endswith` (the source's `_filename.endswith(...)`), as a
character-list suffix test. -/
def strEndsWith (s suf : String) : Bool :=
  suf.toList.isSuffixOf s.toList

/-- Split a line on a delimiter character (the source's
`line.split(self._delimiter)` with the default delimiter `,`). -/
def splitOnCharStr (c : Char) (s : String) : List String :=
  (s.toList.splitOn c).map List.asString

/-- Numeric value of a decimal digit character. -/
def digitVal? (c : Char) : Option ℕ :=
  if c.isDigit then some (c.toNat - 48) else none

/-- Parse a non-empty string of decimal digits. -/
def parseDigits? (cs : List Char) : Option ℕ :=
  if cs.isEmpty then none
  else
    cs.foldl
      (fun acc c =>
        match acc, digitVal? c with
        | some n, some d => some (10 * n + d)
        | _, _ => none)
      (some 0)

/-- Parse an unsigned decimal literal (`123` or `123.456`). -/
def parseUnsigned (cs : List Char) : Option ℚ :=
  match cs.splitOn '.' with
  | [ip] => (parseDigits? ip).map (fun n => (n : ℚ))
  | [ip, fp] =>
    match parseDigits? ip, parseDigits? fp with
    | some n, some f => some ((n : ℚ) + (f : ℚ) / (10 : ℚ) ^ fp.length)
    | _, _ => none
  | _ => none

/-- Model of `pd.to_numeric` on one field: plain (optionally negative) decimal
literals parse to an exact rational, anything else fails. -/
def toRat? (s : String) : Option ℚ :=
  match s.toList with
  | '-' :: rest => (parseUnsigned rest).map Neg.neg
  | cs => parseUnsigned cs

/-- Coerce one delimited row `timestamp, price, size` to numbers.  The source
assigns exactly three column names (a mismatch raises) and coerces fields with
`pd.to_numeric` (price and size via `apply`; the timestamp index is converted
by `pd.to_datetime` downstream — both are modelled as one numeric coercion
per field here). -/
def coerceRow (r : List String) : Except ParseError (ℚ × ℚ × ℚ) :=
  match r with
  | [t, p, s] =>
    match toRat? t, toRat? p, toRat? s with
    | some tv, some pv, some sv => .ok (tv, pv, sv)
    | _, _, _ => .error (.coercion r)
  | _ => .error (.columnMismatch r.length)

/-- Coerce every row, failing on the first bad one. -/
def coerceRows : List (List String) → Except ParseError (List (ℚ × ℚ × ℚ))
  | [] => .ok []
  | r :: rs =>
    match coerceRow r with
    | .error e => .error e
    | .ok v =>
      match coerceRows rs with
      | .error e => .error e
      | .ok vs => .ok (v :: vs)

/-- Source `_construct_data_(self, _filename)`: a `*gz` file is read line by
line, keeping lines longer than 10 bytes and splitting on the delimiter `,`;
a `*csv` file is read by `pd.read_csv`; any other extension raises.  The rows
are then coerced to numbers.  The result is the `(timestamp, price, size)`
series of the file (the source names the price/size columns after the
`BID`/`ASK` marker in the file name; the caller groups files by side, so the
naming is kept implicit here). -/
def constructData (file : RawFile) : Except ParseError (List (ℚ × ℚ × ℚ)) :=
  if strEndsWith file.name "gz" then
    coerceRows ((file.lines.filter (fun l => decide (10 < l.length))).map
      (splitOnCharStr ','))
  else if strEndsWith file.name "csv" then
    coerceRows (file.lines.map (splitOnCharStr ','))
  else
    .error (.unknownFileType file.name)

/-- Parse a list of side files and concatenate the per-file series in order
(pandas `pd.concat(..., axis=0)`); the first `ParseError` aborts. -/
def parseAll (files : List RawFile) : Except ParseError (List (ℚ × ℚ × ℚ)) :=
  match files with
  | [] => .ok []
  | f :: fs =>
    match constructData f with
    | .error e => .error e
    | .ok d =>
      match parseAll fs with
      | .error e => .error e
      | .ok rest => .ok (d ++ rest)

/-! ## TickMerger: `_get_symbol_as_dataframe_` (src/process_1m_data.py lines 103-158) -/

/-- One row of the outer-joined bid/ask table before forward-fill: every
column may be missing (pandas `NaN` is modelled as `Option.none`). -/
structure RawRow where
  ask_price : Option ℚ
  ask_size : Option ℚ
  bid_price : Option ℚ
  bid_size : Option ℚ
deriving DecidableEq

/-- Outer join of two timestamp-keyed tables on their index (pandas
`DataFrame.merge(..., how='outer', left_index=True, right_index=True)`): the
key set is the union of the two indexes, sorted ascending (pandas sorts the
keys of an outer join); each output row carries the (possibly missing) row of
either side. -/
def outerJoin {β γ : Type} (l₁ : List (ℚ × β)) (l₂ : List (ℚ × γ)) :
    List (ℚ × Option β × Option γ) :=
  (((l₁.map Prod.fst ++ l₂.map Prod.fst).dedup).insertionSort (· ≤ ·)).map
    (fun t => (t, lookupTs l₁ t, lookupTs l₂ t))

/-- Source line 142, first step: `_asks.merge(_bids, how='outer', ...)`. -/
def mergeOuter (asks bids : List (ℚ × ℚ × ℚ)) : List (ℚ × RawRow) :=
  (outerJoin asks bids).map
    (fun p =>
      (p.1,
        { ask_price := p.2.1.map Prod.fst
          ask_size := p.2.1.map Prod.snd
          bid_price := p.2.2.map Prod.fst
          bid_size := p.2.2.map Prod.snd }))

/-- One cell of a forward-fill: keep the current value, else the carried one. -/
def ffillField (cur prev : Option ℚ) : Option ℚ :=
  match cur with
  | some v => some v
  | none => prev

/-- Forward-fill pass carrying the last seen value of each column. -/
def ffillGo (pa ps pb pbs : Option ℚ) :
    List (ℚ × RawRow) → List (ℚ × RawRow)
  | [] => []
  | (t, r) :: rest =>
    (t,
      { ask_price := ffillField r.ask_price pa
        ask_size := ffillField r.ask_size ps
        bid_price := ffillField r.bid_price pb
        bid_size := ffillField r.bid_size pbs }) ::
    ffillGo (ffillField r.ask_price pa) (ffillField r.ask_size ps)
      (ffillField r.bid_price pb) (ffillField r.bid_size pbs) rest

/-- Source line 142, second step: `.fillna(method='ffill')`. -/
def ffill (l : List (ℚ × RawRow)) : List (ℚ × RawRow) :=
  ffillGo none none none none l

/-- Source line 142, third step: `.dropna()` — drop every row that still has
a missing cell in any column. -/
def dropna (l : List (ℚ × RawRow)) : List (ℚ × RawRow) :=
  l.filter
    (fun p =>
      p.2.ask_price.isSome && p.2.ask_size.isSome &&
      p.2.bid_price.isSome && p.2.bid_size.isSome)

/-- Failure modes of `_get_symbol_as_dataframe_`: a `ParseError` raised by
`_construct_data_` propagates (no `try` around the concat loops), and when one
side's file list is empty its local (`_bids` / `_asks`) is never assigned, so
line 142 raises an unbound-local `NameError`. -/
inductive RunError where
  | parse (e : ParseError)
  | unboundLocal (name : String)
deriving DecidableEq

/-- The per-side block of lines 122-139: skipped when the file list is empty
(leaving the local unbound, `none` here), otherwise all files are parsed and
concatenated. -/
def parseSide (files : List RawFile) :
    Except RunError (Option (List (ℚ × ℚ × ℚ))) :=
  match files with
  | [] => .ok none
  | _ :: _ =>
    match parseAll files with
    | .error e => .error (.parse e)
    | .ok d => .ok (some d)

/-- Source `_get_symbol_as_dataframe_`: `found` is the result of
`_find_symbol_files_` (`none` models the `(None, None)` no-files case, where
the function logs and returns `None`).  Otherwise the bid block runs first,
then the ask block, then line 142 evaluates
`_asks.merge(_bids, ...).fillna(method='ffill').dropna()` — `_asks` is looked
up before `_bids`, so an empty ask file list surfaces first.  The epoch
conversion is a representation change and the column projection (`_reindex`)
only drops the size columns; both are omitted: completeness is proved for all
four columns, which is stronger. -/
def getSymbolAsDataframe (found : Option (List RawFile × List RawFile)) :
    Except RunError (Option (List (ℚ × RawRow))) :=
  match found with
  | none => .ok none
  | some (bidFiles, askFiles) =>
    match parseSide bidFiles with
    | .error e => .error e
    | .ok bids =>
      match parseSide askFiles with
      | .error e => .error e
      | .ok asks =>
        match asks, bids with
        | some a, some b => .ok (some (dropna (ffill (mergeOuter a b))))
        | none, _ => .error (.unboundLocal "asks")
        | some _, none => .error (.unboundLocal "bids")

/-! ## BarResampler: `_get_resampled_data` (src/process_1m_data.py lines 162-192) -/

/-- One row of the resampler input (after `_reindex`): ask and bid price. -/
structure MRow where
  ask_price : ℚ
  bid_price : ℚ
deriving DecidableEq

/-- Round-half-even to an integer (Python 3 `round`). -/
def roundHalfEven (q : ℚ) : ℤ :=
  if q - ⌊q⌋ < 1 / 2 then ⌊q⌋
  else if 1 / 2 < q - ⌊q⌋ then ⌊q⌋ + 1
  else if ⌊q⌋ % 2 = 0 then ⌊q⌋ else ⌊q⌋ + 1

/-- Python `round(q, digits)` on an exact rational. -/
def roundTo (digits : ℕ) (q : ℚ) : ℚ :=
  (roundHalfEven (q * 10 ^ digits) : ℚ) / 10 ^ digits

/-- Source line 171: `round((_df.ask_price + _df.bid_price) / 2, _symbol_digits)`. -/
def midPrice (digits : ℕ) (r : MRow) : ℚ :=
  roundTo digits ((r.ask_price + r.bid_price) / 2)

/-- The four mid-price aggregates of one bucket (pandas `Resampler.ohlc()`).
The field `open_` stands for the source column `open` (a Lean keyword). -/
structure OHLC where
  open_ : ℚ
  high : ℚ
  low : ℚ
  close : ℚ
deriving DecidableEq

/-- One output row of the resampler when spreads are computed: the OHLC merge
result.  An empty bucket has missing OHLC (all four are `NaN` together) and
missing spread, and volume 0 (`count()` of an empty bin). -/
structure Bar where
  ohlc : Option OHLC
  spread : Option ℚ
  volume : ℕ
deriving DecidableEq

/-- The `_precision` argument: `'tick'` or a fixed bucket width `w` (in the
timestamp's time unit) with bin-edge offset `base` — `base = 0` models the
plain rules (`'min'`, `'H'`, ...) and a nonzero `base` models the anchored
rules (`'B'`, `'C'`, `'D'`, `'W'`, `'24H'`, whose bins start at the
`_daily_start` hour). -/
inductive Precision where
  | tick
  | freq (w : ℕ) (base : ℚ)
deriving DecidableEq

/-- The bin index a timestamp falls into. -/
def bucketOf (w : ℕ) (base : ℚ) (t : ℚ) : ℤ :=
  ⌊(t - base) / (w : ℚ)⌋

/-- The left edge (bucket-start timestamp) of bin `b`. -/
def binStart (w : ℕ) (base : ℚ) (b : ℤ) : ℚ :=
  base + (b : ℚ) * (w : ℚ)

/-- The `mid_price` column added at line 171. -/
def midTable (digits : ℕ) (df : List (ℚ × MRow)) : List (ℚ × ℚ) :=
  df.map (fun p => (p.1, midPrice digits p.2))

/-- The rows of the mid-price series falling into bin `b`. -/
def binRows (w : ℕ) (base : ℚ) (mids : List (ℚ × ℚ)) (b : ℤ) : List (ℚ × ℚ) :=
  mids.filter (fun r => decide (bucketOf w base r.1 = b))

/-- The bins a pandas resampler enumerates: every bin index from the first to
the last occupied one (interior empty bins are materialised with `NaN`
aggregates). -/
def bucketList (w : ℕ) (base : ℚ) (df : List (ℚ × MRow)) : List ℤ :=
  match df with
  | [] => []
  | r :: rs =>
    (List.range
        ((rs.map (fun x => bucketOf w base x.1)).foldl max (bucketOf w base r.1) -
          (rs.map (fun x => bucketOf w base x.1)).foldl min (bucketOf w base r.1) +
          1).toNat).map
      (fun i : ℕ =>
        (rs.map (fun x => bucketOf w base x.1)).foldl min (bucketOf w base r.1) +
          (i : ℤ))

/-- Mean of a bin (pandas `Resampler.mean()`): `NaN` on an empty bin. -/
def meanOpt (l : List ℚ) : Option ℚ :=
  if l.isEmpty then none else some (l.sum / l.length)

/-- Pandas `ohlc()` of one bin, positionally: `open` is the first value,
`high` the max, `low` the min, `close` the last; an empty bin yields `NaN`. -/
def ohlcOf : List ℚ → Option OHLC
  | [] => none
  | x :: xs =>
    some
      { open_ := x
        high := xs.foldl max x
        low := xs.foldl min x
        close := xs.foldl (fun _ y => y) x }

/-- One output row of bin `b` when `_calc_spread` holds: the row of
`_df_ohlc.merge(_df_spread).merge(_df_volume)` (the three per-bin tables share
the identical ascending bin index, so the outer merges align row by row and
are modelled as one per-bin record).  The per-row spread column added at line
183 is `abs(np.diff(_df[['ask_price','bid_price']]))`, i.e.
`|bid_price - ask_price|`. -/
def mkBar (w : ℕ) (base : ℚ) (digits : ℕ) (df : List (ℚ × MRow)) (b : ℤ) :
    ℚ × Bar :=
  (binStart w base b,
    { ohlc := ohlcOf ((binRows w base (midTable digits df) b).map Prod.snd)
      spread :=
        meanOpt
          ((df.filter (fun r => decide (bucketOf w base r.1 = b))).map
            (fun r => |r.2.bid_price - r.2.ask_price|))
      volume := (binRows w base (midTable digits df) b).length })

/-- Result of `_get_resampled_data`.  With `_precision='tick'` the input is
returned unchanged.  With `_calc_spread=True` the result is a bar series.
With `_calc_spread=False` the line `_df = _df_ohlc.merge(_df_spread, ...)`
never runs, so `_df` is still the input tick table (plus its `mid_price`
column) when line 187 merges it with the per-bin volume series: the OHLC table
is discarded and the result is that mixed outer join, not a bar series. -/
inductive ResampleOut where
  | ticks (df : List (ℚ × MRow))
  | bars (df : List (ℚ × Bar))
  | ticksWithVolume (df : List (ℚ × Option (MRow × ℚ) × Option ℕ))
deriving DecidableEq

/-- Source `_get_resampled_data(_df, _precision, _na_handling, _calc_spread,
_daily_start, _symbol_digits)`.  The `_na_handling` callable is applied to the
final frame inside the non-tick branch; the defaults mirror the Python
signature.  (In the `_calc_spread=False` branch the source would likewise
apply `_na_handling` to the mixed frame; no claim exercises that combination
and the policy is typed for bar series here.) -/
def getResampledData (df : List (ℚ × MRow)) (prec : Precision)
    (naHandling : Option (List (ℚ × Bar) → List (ℚ × Bar)) := none)
    (calcSpread : Bool := false) (symbolDigits : ℕ := 5) : ResampleOut :=
  match prec with
  | .tick => .ticks df
  | .freq w base =>
    if calcSpread then
      match naHandling with
      | none => .bars ((bucketList w base df).map (mkBar w base symbolDigits df))
      | some f =>
        .bars (f ((bucketList w base df).map (mkBar w base symbolDigits df)))
    else
      .ticksWithVolume
        (outerJoin (df.map (fun r => (r.1, (r.2, midPrice symbolDigits r.2))))
          ((bucketList w base df).map
            (fun b =>
              (binStart w base b,
                (binRows w base (midTable symbolDigits df) b).length))))

/-! ## Helper lemmas: dedup-by-index -/

theorem dropDupIndex_append {τ α : Type} [DecidableEq τ] (l₁ l₂ : List (τ × α)) :
    ∀ seen : List τ,
      dropDupIndex seen (l₁ ++ l₂) =
        dropDupIndex seen l₁ ++ dropDupIndex (seenAfter seen l₁) l₂ := by
  induction l₁ with
  | nil => intro seen; simp [dropDupIndex, seenAfter]
  | cons x xs ih =>
    intro seen
    by_cases h : x.1 ∈ seen
    · simp [dropDupIndex, seenAfter, h, ih]
    · simp [dropDupIndex, seenAfter, h, ih]

theorem mem_seenAfter {τ α : Type} [DecidableEq τ] (l : List (τ × α)) :
    ∀ (seen : List τ) (t : τ),
      t ∈ seenAfter seen l ↔ t ∈ seen ∨ t ∈ l.map Prod.fst := by
  induction l with
  | nil => intro seen t; simp [seenAfter]
  | cons x xs ih =>
    intro seen t
    by_cases h : x.1 ∈ seen
    · rw [seenAfter, if_pos h, ih]
      simp only [List.map_cons, List.mem_cons]
      constructor
      · tauto
      · rintro (hs | rfl | hx)
        · exact Or.inl hs
        · exact Or.inl h
        · exact Or.inr hx
    · rw [seenAfter, if_neg h, ih]
      simp only [List.mem_cons, List.map_cons]
      tauto

theorem dropDupIndex_eq_self {τ α : Type} [DecidableEq τ] (l : List (τ × α)) :
    ∀ seen : List τ, (l.map Prod.fst).Nodup → (∀ x ∈ l, x.1 ∉ seen) →
      dropDupIndex seen l = l := by
  induction l with
  | nil => intro seen _ _; rfl
  | cons x xs ih =>
    intro seen hnd hout
    have hx : x.1 ∉ seen := hout x (List.mem_cons_self x xs)
    rw [dropDupIndex, if_neg hx]
    rw [List.map_cons] at hnd
    have hnd' := List.nodup_cons.mp hnd
    congr 1
    apply ih
    · exact hnd'.2
    · intro y hy hmem
      rcases List.mem_cons.mp hmem with h1 | h2
      · exact hnd'.1 (h1 ▸ List.mem_map_of_mem Prod.fst hy)
      · exact hout y (List.mem_cons_of_mem _ hy) h2

theorem dropDupIndex_eq_nil {τ α : Type} [DecidableEq τ] (l : List (τ × α)) :
    ∀ seen : List τ, (∀ x ∈ l, x.1 ∈ seen) → dropDupIndex seen l = [] := by
  induction l with
  | nil => intro _ _; rfl
  | cons x xs ih =>
    intro seen hall
    rw [dropDupIndex, if_pos (hall x (List.mem_cons_self x xs))]
    exact ih seen (fun y hy => hall y (List.mem_cons_of_mem _ hy))

theorem dropDupIndex_nodup_and_not_seen {τ α : Type} [DecidableEq τ]
    (l : List (τ × α)) :
    ∀ seen : List τ,
      ((dropDupIndex seen l).map Prod.fst).Nodup ∧
        ∀ t ∈ (dropDupIndex seen l).map Prod.fst, t ∉ seen := by
  induction l with
  | nil => intro seen; refine ⟨by simp [dropDupIndex], by simp [dropDupIndex]⟩
  | cons x xs ih =>
    intro seen
    by_cases h : x.1 ∈ seen
    · rw [dropDupIndex, if_pos h]; exact ih seen
    · rw [dropDupIndex, if_neg h]
      obtain ⟨ihn, ihs⟩ := ih (x.1 :: seen)
      refine ⟨?_, ?_⟩
      · simp only [List.map_cons, List.nodup_cons]
        exact ⟨fun hmem => (ihs _ hmem) (List.mem_cons_self _ _), ihn⟩
      · intro t ht
        simp only [List.map_cons, List.mem_cons] at ht
        rcases ht with rfl | ht
        · exact h
        · exact fun hts => (ihs t ht) (List.mem_cons_of_mem _ hts)

theorem dropDupIndex_sublist {τ α : Type} [DecidableEq τ] (l : List (τ × α)) :
    ∀ seen : List τ, (dropDupIndex seen l).Sublist l := by
  induction l with
  | nil => intro _; simp [dropDupIndex]
  | cons x xs ih =>
    intro seen
    by_cases h : x.1 ∈ seen
    · rw [dropDupIndex, if_pos h]
      exact (ih seen).trans (List.sublist_cons_self x xs)
    · rw [dropDupIndex, if_neg h]
      exact (ih (x.1 :: seen)).cons₂ x

theorem find?_cons_key {τ α : Type} [DecidableEq τ] (x : τ × α)
    (xs : List (τ × α)) (t : τ) :
    (x :: xs).find? (fun y => decide (y.1 = t)) =
      if x.1 = t then some x else xs.find? (fun y => decide (y.1 = t)) := by
  by_cases h : x.1 = t
  · simp [List.find?, h]
  · simp [List.find?, h]

theorem find?_dropDupIndex {τ α : Type} [DecidableEq τ] (l : List (τ × α)) :
    ∀ (seen : List τ) (t : τ), t ∉ seen →
      (dropDupIndex seen l).find? (fun x => decide (x.1 = t)) =
        l.find? (fun x => decide (x.1 = t)) := by
  induction l with
  | nil => intro seen t _; rfl
  | cons x xs ih =>
    intro seen t ht
    by_cases h : x.1 ∈ seen
    · have hne : x.1 ≠ t := by rintro rfl; exact ht h
      rw [dropDupIndex, if_pos h, find?_cons_key, if_neg hne]
      exact ih seen t ht
    · rw [dropDupIndex, if_neg h, find?_cons_key, find?_cons_key]
      by_cases he : x.1 = t
      · rw [if_pos he, if_pos he]
      · rw [if_neg he, if_neg he]
        refine ih (x.1 :: seen) t ?_
        intro hmem
        rcases List.mem_cons.mp hmem with rfl | hmem
        · exact he rfl
        · exact ht hmem

theorem find?_append_left_key {τ α : Type} [DecidableEq τ]
    (l₁ l₂ : List (τ × α)) (t : τ) (h : t ∈ l₁.map Prod.fst) :
    (l₁ ++ l₂).find? (fun x => decide (x.1 = t)) =
      l₁.find? (fun x => decide (x.1 = t)) := by
  induction l₁ with
  | nil => simp at h
  | cons x xs ih =>
    rw [List.cons_append, find?_cons_key, find?_cons_key]
    by_cases he : x.1 = t
    · rw [if_pos he, if_pos he]
    · rw [if_neg he, if_neg he]
      apply ih
      rw [List.map_cons] at h
      rcases List.mem_cons.mp h with h1 | h2
      · exact absurd h1.symm he
      · exact h2

/-! ## Claims C1-C3: SeriesAppender -/

/-- Claim C1, counterexample: append is not idempotent for an arbitrary bar
sequence.  With `B = [(0, 0), (0, 1)]` (a duplicated timestamp) the first
append writes `B` verbatim (the create branch neither de-duplicates nor
sorts), while re-appending `B` de-duplicates, so the series shrinks. -/
theorem append_idempotent_cex :
    append_or_create_csv
        (some (append_or_create_csv none [((0 : ℚ), (0 : ℚ)), (0, 1)]))
        [((0 : ℚ), (0 : ℚ)), (0, 1)] ≠
      append_or_create_csv none [((0 : ℚ), (0 : ℚ)), (0, 1)] := by
  decide

/-- Claim C1 (amended): for every bar sequence `B` whose timestamps are
pairwise distinct (which holds for every series produced by the resampler,
whose index is the bin start), `append(append(empty, B), B) = append(empty, B)`. -/
theorem append_idempotent_of_nodup {τ α : Type} [DecidableEq τ]
    (B : List (τ × α)) (h : (B.map Prod.fst).Nodup) :
    append_or_create_csv (some (append_or_create_csv none B)) B =
      append_or_create_csv none B := by
  simp only [append_or_create_csv]
  rw [dropDupIndex_append,
    dropDupIndex_eq_self B [] h (fun x _ => List.not_mem_nil x.1),
    dropDupIndex_eq_nil B _
      (fun x hx =>
        (mem_seenAfter B [] x.1).mpr (Or.inr (List.mem_map_of_mem Prod.fst hx))),
    List.append_nil]

/-- Claim C1, witness for the amended theorem at a concrete two-bar series. -/
theorem append_idempotent_of_nodup_witness :
    (([((0 : ℚ), (0 : ℚ)), (1, 1)].map Prod.fst).Nodup) ∧
      append_or_create_csv
          (some (append_or_create_csv none [((0 : ℚ), (0 : ℚ)), (1, 1)]))
          [((0 : ℚ), (0 : ℚ)), (1, 1)] =
        append_or_create_csv none [((0 : ℚ), (0 : ℚ)), (1, 1)] :=
  ⟨by decide, append_idempotent_of_nodup _ (by decide)⟩

/-- Claim C2 (confirmed): appending onto an existing series keeps the
pre-existing row whenever a timestamp occurs in both: the concatenation puts
the old rows first and de-duplication keeps the first occurrence, so the
merged series' row at such a timestamp is the existing series' row, never the
new one's. -/
theorem append_preserves_existing {τ α : Type} [DecidableEq τ]
    (old new : List (τ × α)) (t : τ)
    (h1 : t ∈ old.map Prod.fst) (h2 : t ∈ new.map Prod.fst) :
    lookupTs (append_or_create_csv (some old) new) t = lookupTs old t := by
  simp only [append_or_create_csv, lookupTs]
  rw [find?_dropDupIndex _ _ _ (List.not_mem_nil t), find?_append_left_key _ _ _ h1]

/-- Claim C2, witness: the old row at timestamp 0 survives an append of a
conflicting new row. -/
theorem append_preserves_existing_witness :
    lookupTs
        (append_or_create_csv (some [((0 : ℚ), (5 : ℚ))]) [((0 : ℚ), (9 : ℚ))])
        0 =
      lookupTs [((0 : ℚ), (5 : ℚ))] 0 :=
  append_preserves_existing _ _ 0 (by decide) (by decide)

/-- Claim C3, counterexample: the persisted series is not re-sorted.  The
source concatenates `[old_data, _df]` and de-duplicates, but never sorts, so
appending a bar older than the existing tail leaves the series out of order
(the claim says the merged result is re-sorted ascending before persisting). -/
theorem append_sorted_cex :
    ¬ List.Sorted (· ≤ ·)
        ((append_or_create_csv (some [((10 : ℚ), (0 : ℚ))])
            [((5 : ℚ), (1 : ℚ))]).map Prod.fst) := by
  decide

/-- Claim C3 (amended): after an append onto an existing series the persisted
series is de-duplicated by timestamp — its timestamps are strictly unique —
but it is not re-sorted: the result keeps concatenation order (old rows, then
unseen new rows), so it is ascending exactly when that concatenation already
is (as in normal chronological use where new bars follow old ones). -/
theorem append_dedup_not_resorted {τ α : Type} [LinearOrder τ]
    (old new : List (τ × α)) :
    ((append_or_create_csv (some old) new).map Prod.fst).Nodup ∧
      (List.Sorted (· ≤ ·) ((old ++ new).map Prod.fst) →
        List.Sorted (· ≤ ·) ((append_or_create_csv (some old) new).map Prod.fst)) := by
  constructor
  · exact (dropDupIndex_nodup_and_not_seen (old ++ new) []).1
  · intro hs
    exact List.Pairwise.sublist
      ((dropDupIndex_sublist (old ++ new) []).map Prod.fst) hs

/-- Claim C3, witness for the amended theorem: a chronological append is
unique and stays sorted. -/
theorem append_dedup_not_resorted_witness :
    ((append_or_create_csv (some [((0 : ℚ), (0 : ℚ))]) [((1 : ℚ), (1 : ℚ))]).map
        Prod.fst).Nodup ∧
      List.Sorted (· ≤ ·)
        ((append_or_create_csv (some [((0 : ℚ), (0 : ℚ))]) [((1 : ℚ), (1 : ℚ))]).map
          Prod.fst) :=
  ⟨(append_dedup_not_resorted _ _).1,
    (append_dedup_not_resorted [((0 : ℚ), (0 : ℚ))] [((1 : ℚ), (1 : ℚ))]).2
      (by decide)⟩

/-! ## Helper lemmas: parser and merger -/

theorem dropna_complete (l : List (ℚ × RawRow)) :
    ∀ p ∈ dropna l,
      p.2.ask_price.isSome = true ∧ p.2.ask_size.isSome = true ∧
        p.2.bid_price.isSome = true ∧ p.2.bid_size.isSome = true := by
  intro p hp
  obtain ⟨-, hpred⟩ := List.mem_filter.mp hp
  simp only [Bool.and_eq_true] at hpred
  exact ⟨hpred.1.1.1, hpred.1.1.2, hpred.1.2, hpred.2⟩

theorem coerceRows_error_of_bad_row (rows : List (List String))
    (h : ∃ r ∈ rows, ∃ e, coerceRow r = .error e) :
    ∃ e, coerceRows rows = .error e := by
  induction rows with
  | nil =>
    obtain ⟨r, hr, -⟩ := h
    simp at hr
  | cons r rs ih =>
    obtain ⟨q, hq, e, he⟩ := h
    rcases List.mem_cons.mp hq with rfl | hq
    · exact ⟨e, by rw [coerceRows, he]⟩
    · cases hcr : coerceRow r with
      | error e2 => exact ⟨e2, by rw [coerceRows, hcr]⟩
      | ok v =>
        obtain ⟨e2, he2⟩ := ih ⟨q, hq, e, he⟩
        exact ⟨e2, by rw [coerceRows, hcr, he2]⟩

theorem parseAll_error (files : List RawFile) (f : RawFile) (e : ParseError)
    (hf : f ∈ files) (he : constructData f = .error e) :
    ∃ e2, parseAll files = .error e2 := by
  induction files with
  | nil => simp at hf
  | cons g fs ih =>
    rcases List.mem_cons.mp hf with rfl | hf
    · exact ⟨e, by rw [parseAll, he]⟩
    · cases hg : constructData g with
      | error e2 => exact ⟨e2, by rw [parseAll, hg]⟩
      | ok d =>
        obtain ⟨e2, he2⟩ := ih hf
        exact ⟨e2, by rw [parseAll, hg, he2]⟩

/-! ## Claims C4, C8, C9: TickFileParser and TickMerger -/

/-- Claim C4 (confirmed): every row of a successfully merged table is complete.
The outer join may leave missing cells, forward-fill replaces each with the
most recent prior observation of that column, and `dropna` removes every row
still containing a missing cell, so neither `ask_price` nor `bid_price` (nor
either size column) is missing in any returned row. -/
theorem merged_table_complete (found : Option (List RawFile × List RawFile))
    (tbl : List (ℚ × RawRow))
    (h : getSymbolAsDataframe found = .ok (some tbl)) :
    ∀ p ∈ tbl,
      p.2.ask_price.isSome = true ∧ p.2.ask_size.isSome = true ∧
        p.2.bid_price.isSome = true ∧ p.2.bid_size.isSome = true := by
  rcases found with - | ⟨bidFiles, askFiles⟩
  · simp [getSymbolAsDataframe] at h
  · simp only [getSymbolAsDataframe] at h
    cases hb : parseSide bidFiles <;> rw [hb] at h
    case error e => simp at h
    case ok bids =>
      cases ha : parseSide askFiles <;> rw [ha] at h
      case error e => simp at h
      case ok asks =>
        rcases asks with - | a
        · simp at h
        · rcases bids with - | b
          · simp at h
          · simp only [Except.ok.injEq, Option.some.injEq] at h
            rw [← h]
            exact dropna_complete _

/-- Claim C4, witness: one bid file and one ask file sharing timestamp 1
give a one-row merged table whose row is complete in all four columns. -/
theorem merged_table_complete_witness :
    (some (4 : ℚ)).isSome = true ∧ (some (5 : ℚ)).isSome = true ∧
      (some (2 : ℚ)).isSome = true ∧ (some (3 : ℚ)).isSome = true :=
  merged_table_complete
    (some ([⟨"EURUSD_BID.csv", ["1,2,3"]⟩], [⟨"EURUSD_ASK.csv", ["1,4,5"]⟩]))
    [((1 : ℚ), (⟨some 4, some 5, some 2, some 3⟩ : RawRow))] rfl
    ((1 : ℚ), (⟨some 4, some 5, some 2, some 3⟩ : RawRow))
    (List.mem_singleton.mpr rfl)

/-- Claim C8 (confirmed): an unrecognized extension fails the parse with an
error naming the file (the source's `raise` on the unknown-extension branch —
an uncaught exception, surfacing as `TypeError` in Python 3 because a string
is raised, but propagating either way); a row whose fields fail numeric
coercion fails the parse of that file; and a failed parse propagates through
`_get_symbol_as_dataframe_` (no surrounding `try`), which then never returns
a merged table. -/
theorem construct_data_parse_error_propagates
    (f : RawFile) (bidFiles askFiles : List RawFile) :
    (strEndsWith f.name "gz" = false → strEndsWith f.name "csv" = false →
        constructData f = .error (.unknownFileType f.name)) ∧
      (strEndsWith f.name "gz" = false → strEndsWith f.name "csv" = true →
        (∃ line ∈ f.lines, ∃ e, coerceRow (splitOnCharStr ',' line) = .error e) →
        ∃ e, constructData f = .error e) ∧
      (∀ e, f ∈ bidFiles → constructData f = .error e →
        ∃ e2, getSymbolAsDataframe (some (bidFiles, askFiles)) = .error e2) := by
  refine ⟨?_, ?_, ?_⟩
  · intro h1 h2
    simp [constructData, h1, h2]
  · intro h1 h2 hbad
    obtain ⟨line, hl, e, he⟩ := hbad
    have hcd : constructData f = coerceRows (f.lines.map (splitOnCharStr ',')) := by
      simp [constructData, h1, h2]
    rw [hcd]
    exact coerceRows_error_of_bad_row _
      ⟨splitOnCharStr ',' line, List.mem_map_of_mem _ hl, e, he⟩
  · intro e hf he
    cases bidFiles with
    | nil => simp at hf
    | cons g gs =>
      obtain ⟨e2, he2⟩ := parseAll_error (g :: gs) f e hf he
      exact ⟨.parse e2, by simp [getSymbolAsDataframe, parseSide, he2]⟩

/-- Claim C8, witness: a `.log` file fails with the unknown-extension error; a
csv row `a,b,c` fails coercion; and that failure propagates out of the merge
step. -/
theorem construct_data_parse_error_propagates_witness :
    constructData ⟨"EURUSD_2021_BID.log", []⟩ =
        .error (.unknownFileType "EURUSD_2021_BID.log") ∧
      (∃ e, constructData ⟨"EURUSD_BID.csv", ["a,b,c"]⟩ = .error e) ∧
      (∃ e2,
        getSymbolAsDataframe
            (some ([⟨"EURUSD_BID.csv", ["a,b,c"]⟩], [⟨"EURUSD_ASK.csv", []⟩])) =
          .error e2) :=
  ⟨(construct_data_parse_error_propagates ⟨"EURUSD_2021_BID.log", []⟩ [] []).1
      rfl rfl,
    (construct_data_parse_error_propagates ⟨"EURUSD_BID.csv", ["a,b,c"]⟩ [] []).2.1
      rfl rfl ⟨"a,b,c", by decide, .coercion ["a", "b", "c"], rfl⟩,
    (construct_data_parse_error_propagates ⟨"EURUSD_BID.csv", ["a,b,c"]⟩
        [⟨"EURUSD_BID.csv", ["a,b,c"]⟩] [⟨"EURUSD_ASK.csv", []⟩]).2.2
      (.coercion ["a", "b", "c"]) (by decide) rfl⟩

/-- Claim C9, counterexample: a side with files but zero records does not make
the merge fail.  With one one-record bid file and one zero-record ask file the
concat yields an empty ask series, the outer join leaves every ask cell
missing, forward-fill cannot resolve them and `dropna` removes every row — the
function returns an (empty) merged table instead of failing, contradicting
the claim that it never returns a `MergedTickTable` when a side has zero
records after concatenation. -/
theorem merge_zero_records_cex :
    getSymbolAsDataframe
        (some ([⟨"EURUSD_BID.csv", ["1,2,3"]⟩], [⟨"EURUSD_ASK.csv", []⟩])) =
      .ok (some []) :=
  rfl

/-- Claim C9 (amended): the merge step fails (with an uncaught error — an
unbound-local `NameError` at the merge line, or a parse failure of the other
side, never a returned table) whenever either side's file list is empty; when
both sides have at least one file but one side has zero records after
concatenation, it does not fail and returns a (then empty) merged table. -/
theorem merge_empty_filelist_error (bidFiles askFiles : List RawFile)
    (h : bidFiles = [] ∨ askFiles = []) :
    ∃ e, getSymbolAsDataframe (some (bidFiles, askFiles)) = .error e := by
  have hnil : parseSide ([] : List RawFile) = .ok none := rfl
  rcases h with rfl | rfl
  · cases ha : parseSide askFiles with
    | error e => exact ⟨e, by simp [getSymbolAsDataframe, hnil, ha]⟩
    | ok asks =>
      cases asks with
      | none =>
        exact ⟨.unboundLocal "asks", by simp [getSymbolAsDataframe, hnil, ha]⟩
      | some a =>
        exact ⟨.unboundLocal "bids", by simp [getSymbolAsDataframe, hnil, ha]⟩
  · cases hb : parseSide bidFiles with
    | error e => exact ⟨e, by simp [getSymbolAsDataframe, hb]⟩
    | ok bids =>
      exact ⟨.unboundLocal "asks", by simp [getSymbolAsDataframe, hnil, hb]⟩

/-- Claim C9, witness for the amended theorem: with no files on either side
the merge line raises (the ask local is unbound first). -/
theorem merge_empty_filelist_error_witness :
    ∃ e, getSymbolAsDataframe (some (([] : List RawFile), ([] : List RawFile))) =
      .error e :=
  merge_empty_filelist_error [] [] (Or.inl rfl)

/-! ## Helper lemmas: fold bounds and bucket enumeration -/

theorem le_foldl_max {α : Type} [LinearOrder α] (xs : List α) :
    ∀ (x y : α), y ∈ x :: xs → y ≤ xs.foldl max x := by
  induction xs with
  | nil =>
    intro x y hy
    rcases List.mem_cons.mp hy with rfl | h
    · exact le_refl y
    · simp at h
  | cons z zs ih =>
    intro x y hy
    rw [List.foldl_cons]
    rcases List.mem_cons.mp hy with rfl | hy2
    · exact le_trans (le_max_left y z) (ih (max y z) _ (List.mem_cons_self _ _))
    · rcases List.mem_cons.mp hy2 with rfl | hy3
      · exact le_trans (le_max_right x y) (ih (max x y) _ (List.mem_cons_self _ _))
      · exact ih (max x z) y (List.mem_cons_of_mem _ hy3)

theorem foldl_min_le {α : Type} [LinearOrder α] (xs : List α) :
    ∀ (x y : α), y ∈ x :: xs → xs.foldl min x ≤ y := by
  induction xs with
  | nil =>
    intro x y hy
    rcases List.mem_cons.mp hy with rfl | h
    · exact le_refl y
    · simp at h
  | cons z zs ih =>
    intro x y hy
    rw [List.foldl_cons]
    rcases List.mem_cons.mp hy with rfl | hy2
    · exact le_trans (ih (min y z) _ (List.mem_cons_self _ _)) (min_le_left y z)
    · rcases List.mem_cons.mp hy2 with rfl | hy3
      · exact le_trans (ih (min x y) _ (List.mem_cons_self _ _)) (min_le_right x y)
      · exact ih (min x z) y (List.mem_cons_of_mem _ hy3)

theorem foldl_max_mem {α : Type} [LinearOrder α] (xs : List α) :
    ∀ x, xs.foldl max x ∈ x :: xs := by
  induction xs with
  | nil => intro x; simp
  | cons z zs ih =>
    intro x
    rw [List.foldl_cons]
    rcases List.mem_cons.mp (ih (max x z)) with h | h
    · rcases max_choice x z with hm | hm
      · rw [h, hm]; exact List.mem_cons_self _ _
      · rw [h, hm]; exact List.mem_cons_of_mem _ (List.mem_cons_self _ _)
    · exact List.mem_cons_of_mem _ (List.mem_cons_of_mem _ h)

theorem foldl_min_mem {α : Type} [LinearOrder α] (xs : List α) :
    ∀ x, xs.foldl min x ∈ x :: xs := by
  induction xs with
  | nil => intro x; simp
  | cons z zs ih =>
    intro x
    rw [List.foldl_cons]
    rcases List.mem_cons.mp (ih (min x z)) with h | h
    · rcases min_choice x z with hm | hm
      · rw [h, hm]; exact List.mem_cons_self _ _
      · rw [h, hm]; exact List.mem_cons_of_mem _ (List.mem_cons_self _ _)
    · exact List.mem_cons_of_mem _ (List.mem_cons_of_mem _ h)

theorem foldl_last_mem {α : Type} (xs : List α) :
    ∀ x, xs.foldl (fun _ y => y) x ∈ x :: xs := by
  induction xs with
  | nil => intro x; simp
  | cons z zs ih =>
    intro x
    rw [List.foldl_cons]
    exact List.mem_cons_of_mem _ (ih z)

theorem mem_range_map_ofInt {bmin bmax b : ℤ} (h1 : bmin ≤ b) (h2 : b ≤ bmax) :
    b ∈ (List.range (bmax - bmin + 1).toNat).map (fun i : ℕ => bmin + (i : ℤ)) := by
  refine List.mem_map.mpr ⟨(b - bmin).toNat, ?_, ?_⟩
  · rw [List.mem_range]; omega
  · omega

theorem bucketOf_mem_bucketList (w : ℕ) (base : ℚ) (df : List (ℚ × MRow)) :
    ∀ x ∈ df, bucketOf w base x.1 ∈ bucketList w base df := by
  intro x hx
  cases df with
  | nil => simp at hx
  | cons r rs =>
    have hin : bucketOf w base x.1 ∈
        bucketOf w base r.1 :: rs.map (fun y => bucketOf w base y.1) := by
      rcases List.mem_cons.mp hx with rfl | hx2
      · exact List.mem_cons_self _ _
      · exact List.mem_cons_of_mem _
          (List.mem_map_of_mem (fun y => bucketOf w base y.1) hx2)
    rw [bucketList]
    exact mem_range_map_ofInt
      (foldl_min_le (rs.map (fun y => bucketOf w base y.1)) (bucketOf w base r.1)
        _ hin)
      (le_foldl_max (rs.map (fun y => bucketOf w base y.1)) (bucketOf w base r.1)
        _ hin)

theorem bucketList_nodup (w : ℕ) (base : ℚ) (df : List (ℚ × MRow)) :
    (bucketList w base df).Nodup := by
  cases df with
  | nil => simp [bucketList]
  | cons r rs =>
    rw [bucketList]
    refine List.Nodup.map ?_ (List.nodup_range _)
    intro a b hab
    simp only [] at hab
    omega

theorem midTable_bucket_mem (w : ℕ) (base : ℚ) (d : ℕ) (df : List (ℚ × MRow)) :
    ∀ x ∈ midTable d df, bucketOf w base x.1 ∈ bucketList w base df := by
  intro x hx
  obtain ⟨r, hr, hrx⟩ := List.mem_map.mp hx
  have h1 : x.1 = r.1 := by rw [← hrx]
  rw [h1]
  exact bucketOf_mem_bucketList w base df r hr

theorem sum_map_add_nat {κ : Type} (ks : List κ) (f g : κ → ℕ) :
    (ks.map (fun b => f b + g b)).sum = (ks.map f).sum + (ks.map g).sum := by
  induction ks with
  | nil => rfl
  | cons k ks ih =>
    simp only [List.map_cons, List.sum_cons, ih]
    omega

theorem sum_map_ite_eq_zero {κ : Type} [DecidableEq κ] (ks : List κ) (a : κ)
    (h : a ∉ ks) :
    (ks.map (fun b => if a = b then (1 : ℕ) else 0)).sum = 0 := by
  induction ks with
  | nil => rfl
  | cons k ks ih =>
    simp only [List.map_cons, List.sum_cons]
    rw [if_neg (by rintro rfl; exact h (List.mem_cons_self _ _)),
      ih (fun hk => h (List.mem_cons_of_mem _ hk))]

theorem sum_map_ite_eq_one {κ : Type} [DecidableEq κ] (ks : List κ) (a : κ)
    (hnd : ks.Nodup) (ha : a ∈ ks) :
    (ks.map (fun b => if a = b then (1 : ℕ) else 0)).sum = 1 := by
  induction ks with
  | nil => simp at ha
  | cons k ks ih =>
    obtain ⟨hk, hnd2⟩ := List.nodup_cons.mp hnd
    simp only [List.map_cons, List.sum_cons]
    by_cases he : a = k
    · rw [if_pos he, sum_map_ite_eq_zero ks a (fun hmem => hk (he ▸ hmem))]
    · rw [if_neg he,
        ih hnd2
          (by
            rcases List.mem_cons.mp ha with h1 | h1
            · exact absurd h1 he
            · exact h1)]

theorem sum_binRows_length (w : ℕ) (base : ℚ) :
    ∀ (mids : List (ℚ × ℚ)) (ks : List ℤ), ks.Nodup →
      (∀ x ∈ mids, bucketOf w base x.1 ∈ ks) →
      (ks.map (fun b => (binRows w base mids b).length)).sum = mids.length := by
  intro mids
  induction mids with
  | nil =>
    intro ks _ _
    simp [binRows]
  | cons a t ih =>
    intro ks hnd hin
    have hstep : ∀ b : ℤ, (binRows w base (a :: t) b).length =
        (if bucketOf w base a.1 = b then 1 else 0) + (binRows w base t b).length := by
      intro b
      by_cases h : bucketOf w base a.1 = b
      · simp [binRows, List.filter_cons, h]
        omega
      · simp [binRows, List.filter_cons, h]
    simp only [hstep]
    rw [sum_map_add_nat ks (fun b => if bucketOf w base a.1 = b then 1 else 0)
        (fun b => (binRows w base t b).length),
      sum_map_ite_eq_one ks _ hnd (hin a (List.mem_cons_self _ _)),
      ih ks hnd (fun x hx => hin x (List.mem_cons_of_mem _ hx))]
    simp only [List.length_cons]
    omega

/-! ## Claims C5-C7, C10: BarResampler -/

/-- Claim C5 (confirmed): every bar produced by a non-tick resample whose
bucket is non-empty satisfies the OHLC ordering facts — the bucket's high is
the max and its low the min of the bucket's (rounded) mid-prices, while open
and close are its first and last, so `low ≤ high`,
`max open close ≤ high` and `low ≤ min open close`.  (Bars are produced only
on the `_calc_spread` path; with `_calc_spread=False` the source discards the
OHLC table, so the hypothesis is unsatisfiable there.) -/
theorem resample_bucket_coverage (w : ℕ) (base : ℚ) (cs : Bool) (d : ℕ)
    (df : List (ℚ × MRow)) (out : List (ℚ × Bar)) (t : ℚ) (bar : Bar) (oh : OHLC)
    (hout : getResampledData df (.freq w base) none cs d = .bars out)
    (hmem : (t, bar) ∈ out) (hoh : bar.ohlc = some oh) :
    oh.low ≤ oh.high ∧ max oh.open_ oh.close ≤ oh.high ∧
      oh.low ≤ min oh.open_ oh.close := by
  cases cs with
  | false => simp [getResampledData] at hout
  | true =>
    simp only [getResampledData, if_true, ResampleOut.bars.injEq] at hout
    subst hout
    obtain ⟨b, hb, hbar⟩ := List.mem_map.mp hmem
    have hbar2 : (mkBar w base d df b).2 = bar := congrArg Prod.snd hbar
    rw [← hbar2] at hoh
    simp only [mkBar] at hoh
    cases hl : (binRows w base (midTable d df) b).map Prod.snd with
    | nil => rw [hl] at hoh; simp [ohlcOf] at hoh
    | cons x xs =>
      rw [hl, ohlcOf] at hoh
      injection hoh with h2
      subst h2
      refine ⟨?_, ?_, ?_⟩
      · exact le_foldl_max xs x _ (foldl_min_mem xs x)
      · exact max_le (le_foldl_max xs x x (List.mem_cons_self _ _))
          (le_foldl_max xs x _ (foldl_last_mem xs x))
      · exact le_min (foldl_min_le xs x x (List.mem_cons_self _ _))
          (foldl_min_le xs x _ (foldl_last_mem xs x))

/-- Claim C5, witness: a one-tick table at `ask = 2`, `bid = 1` yields one bar
with all four OHLC values `3/2`, and the coverage inequalities hold there. -/
theorem resample_bucket_coverage_witness :
    (3 / 2 : ℚ) ≤ 3 / 2 ∧ max (3 / 2 : ℚ) (3 / 2) ≤ 3 / 2 ∧
      (3 / 2 : ℚ) ≤ min (3 / 2 : ℚ) (3 / 2) :=
  resample_bucket_coverage 1 0 true 5 [(0, ⟨2, 1⟩)]
    [(0, { ohlc := some ⟨3 / 2, 3 / 2, 3 / 2, 3 / 2⟩, spread := some 1, volume := 1 })]
    0 { ohlc := some ⟨3 / 2, 3 / 2, 3 / 2, 3 / 2⟩, spread := some 1, volume := 1 }
    ⟨3 / 2, 3 / 2, 3 / 2, 3 / 2⟩
    (by
      norm_num [getResampledData, mkBar, bucketList, midTable, binRows, binStart,
        bucketOf, midPrice, roundTo, roundHalfEven, ohlcOf, meanOpt,
        List.filter_cons, List.range_succ, Function.comp])
    (List.mem_singleton.mpr rfl) rfl

/-- Claim C6 (confirmed): the volumes of the produced bars sum to the row
count of the input table (the bin range spans exactly the occupied buckets,
so the covered time range contains every input row), and a bar over an empty
bucket has volume 0 and missing OHLC.  Empty buckets contribute 0, so the sum
over all bars equals the sum over non-empty buckets. -/
theorem resample_volume_conservation (w : ℕ) (base : ℚ) (cs : Bool) (d : ℕ)
    (df : List (ℚ × MRow)) (out : List (ℚ × Bar))
    (hout : getResampledData df (.freq w base) none cs d = .bars out) :
    (out.map (fun p => p.2.volume)).sum = df.length ∧
      ∀ p ∈ out, p.2.volume = 0 → p.2.ohlc = none := by
  cases cs with
  | false => simp [getResampledData] at hout
  | true =>
    simp only [getResampledData, if_true, ResampleOut.bars.injEq] at hout
    subst hout
    constructor
    · rw [List.map_map]
      have hcomp : ((fun p : ℚ × Bar => p.2.volume) ∘ mkBar w base d df) =
          fun b => (binRows w base (midTable d df) b).length := rfl
      rw [hcomp,
        sum_binRows_length w base (midTable d df) (bucketList w base df)
          (bucketList_nodup w base df) (midTable_bucket_mem w base d df)]
      simp [midTable]
    · intro p hp hvol
      obtain ⟨b, hb, hbar⟩ := List.mem_map.mp hp
      have hbar2 : (mkBar w base d df b).2 = p.2 := congrArg Prod.snd hbar
      rw [← hbar2] at hvol ⊢
      simp only [mkBar] at hvol ⊢
      rw [List.length_eq_zero] at hvol
      rw [hvol]
      rfl

/-- Claim C6, witness: two ticks falling into buckets 0 and 2 of width 1
produce three bars (the interior bucket 1 is empty with volume 0 and missing
OHLC), and the volumes sum to the input row count 2. -/
theorem resample_volume_conservation_witness :
    (([((0 : ℚ),
          ({ ohlc := some ⟨3 / 2, 3 / 2, 3 / 2, 3 / 2⟩, spread := some 1,
             volume := 1 } : Bar)),
        (1, { ohlc := none, spread := none, volume := 0 }),
        (2, { ohlc := some ⟨7 / 2, 7 / 2, 7 / 2, 7 / 2⟩, spread := some 1,
              volume := 1 })].map (fun p => p.2.volume)).sum =
        [((0 : ℚ), (⟨2, 1⟩ : MRow)), (5 / 2, ⟨4, 3⟩)].length) ∧
      ∀ p ∈ [((0 : ℚ),
          ({ ohlc := some ⟨3 / 2, 3 / 2, 3 / 2, 3 / 2⟩, spread := some 1,
             volume := 1 } : Bar)),
        (1, { ohlc := none, spread := none, volume := 0 }),
        (2, { ohlc := some ⟨7 / 2, 7 / 2, 7 / 2, 7 / 2⟩, spread := some 1,
              volume := 1 })], p.2.volume = 0 → p.2.ohlc = none :=
  resample_volume_conservation 1 0 true 5 [((0 : ℚ), ⟨2, 1⟩), (5 / 2, ⟨4, 3⟩)]
    [((0 : ℚ),
        { ohlc := some ⟨3 / 2, 3 / 2, 3 / 2, 3 / 2⟩, spread := some 1,
          volume := 1 }),
      (1, { ohlc := none, spread := none, volume := 0 }),
      (2, { ohlc := some ⟨7 / 2, 7 / 2, 7 / 2, 7 / 2⟩, spread := some 1,
            volume := 1 })]
    (by
      have h3 : List.range (Int.toNat 3) = [0, 1, 2] := rfl
      norm_num [getResampledData, mkBar, bucketList, midTable, binRows, binStart,
        bucketOf, midPrice, roundTo, roundHalfEven, ohlcOf, meanOpt,
        List.filter_cons, h3, Function.comp])

/-- Claim C7 (confirmed): the mid-price of every row is
`round((ask_price + bid_price) / 2, digits)` (exact round-half-even on
rationals, modelling Python's `round`), and every OHLC value of every
produced bar equals the rounded mid-price of some input row — OHLC derives
from rounded mid-prices, never from raw ask or bid prices. -/
theorem resample_mid_price_ohlc (w : ℕ) (base : ℚ) (cs : Bool) (d : ℕ)
    (df : List (ℚ × MRow)) (out : List (ℚ × Bar)) :
    (∀ p ∈ df, midPrice d p.2 = roundTo d ((p.2.ask_price + p.2.bid_price) / 2)) ∧
      (getResampledData df (.freq w base) none cs d = .bars out →
        ∀ p ∈ out, ∀ oh, p.2.ohlc = some oh →
          (∃ r ∈ df, oh.open_ = midPrice d r.2) ∧
            (∃ r ∈ df, oh.high = midPrice d r.2) ∧
            (∃ r ∈ df, oh.low = midPrice d r.2) ∧
            (∃ r ∈ df, oh.close = midPrice d r.2)) := by
  constructor
  · intro p _
    rfl
  · intro hout p hp oh hoh
    cases cs with
    | false => simp [getResampledData] at hout
    | true =>
      simp only [getResampledData, if_true, ResampleOut.bars.injEq] at hout
      subst hout
      obtain ⟨b, hb, hbar⟩ := List.mem_map.mp hp
      have hbar2 : (mkBar w base d df b).2 = p.2 := congrArg Prod.snd hbar
      rw [← hbar2] at hoh
      simp only [mkBar] at hoh
      have hLmem : ∀ y ∈ (binRows w base (midTable d df) b).map Prod.snd,
          ∃ r ∈ df, y = midPrice d r.2 := by
        intro y hy
        obtain ⟨q, hq, hqy⟩ := List.mem_map.mp hy
        have hq1 : q ∈ (midTable d df).filter
            (fun r => decide (bucketOf w base r.1 = b)) := hq
        have hq2 : q ∈ midTable d df := List.mem_of_mem_filter hq1
        obtain ⟨r, hr, hrq⟩ := List.mem_map.mp hq2
        refine ⟨r, hr, ?_⟩
        rw [← hqy, ← hrq]
      cases hl : (binRows w base (midTable d df) b).map Prod.snd with
      | nil => rw [hl] at hoh; simp [ohlcOf] at hoh
      | cons x xs =>
        rw [hl] at hoh hLmem
        rw [ohlcOf] at hoh
        injection hoh with h2
        subst h2
        exact ⟨hLmem x (List.mem_cons_self _ _),
          hLmem _ (foldl_max_mem xs x),
          hLmem _ (foldl_min_mem xs x),
          hLmem _ (foldl_last_mem xs x)⟩

/-- Claim C7, witness: at `ask = 2`, `bid = 1` the rounded mid-price is `3/2`
and the single produced bar's OHLC values all equal it. -/
theorem resample_mid_price_ohlc_witness :
    (∀ p ∈ [((0 : ℚ), (⟨2, 1⟩ : MRow))],
        midPrice 5 p.2 = roundTo 5 ((p.2.ask_price + p.2.bid_price) / 2)) ∧
      (∀ p ∈ [((0 : ℚ),
          ({ ohlc := some ⟨3 / 2, 3 / 2, 3 / 2, 3 / 2⟩, spread := some 1,
             volume := 1 } : Bar))],
        ∀ oh, p.2.ohlc = some oh →
          (∃ r ∈ [((0 : ℚ), (⟨2, 1⟩ : MRow))], oh.open_ = midPrice 5 r.2) ∧
            (∃ r ∈ [((0 : ℚ), (⟨2, 1⟩ : MRow))], oh.high = midPrice 5 r.2) ∧
            (∃ r ∈ [((0 : ℚ), (⟨2, 1⟩ : MRow))], oh.low = midPrice 5 r.2) ∧
            (∃ r ∈ [((0 : ℚ), (⟨2, 1⟩ : MRow))], oh.close = midPrice 5 r.2)) :=
  ⟨(resample_mid_price_ohlc 1 0 true 5 [((0 : ℚ), ⟨2, 1⟩)]
      [((0 : ℚ),
        { ohlc := some ⟨3 / 2, 3 / 2, 3 / 2, 3 / 2⟩, spread := some 1,
          volume := 1 })]).1,
    (resample_mid_price_ohlc 1 0 true 5 [((0 : ℚ), ⟨2, 1⟩)]
      [((0 : ℚ),
        { ohlc := some ⟨3 / 2, 3 / 2, 3 / 2, 3 / 2⟩, spread := some 1,
          volume := 1 })]).2
      (by
        norm_num [getResampledData, mkBar, bucketList, midTable, binRows, binStart,
          bucketOf, midPrice, roundTo, roundHalfEven, ohlcOf, meanOpt,
          List.filter_cons, List.range_succ, Function.comp])⟩

/-- Claim C10 (confirmed): with `_precision='tick'` the whole non-tick block
is skipped — the input table is returned unchanged, no `mid_price`, OHLC,
volume or spread column is added, and the `_na_handling` policy is not
applied (it is only invoked inside the non-tick branch). -/
theorem resample_tick_identity (df : List (ℚ × MRow))
    (naHandling : Option (List (ℚ × Bar) → List (ℚ × Bar))) (cs : Bool) (d : ℕ) :
    getResampledData df Precision.tick naHandling cs d = ResampleOut.ticks df :=
  rfl
